import Mathlib

/-
  Shallow embedding of `src/samplace_final.py` (Sam's Place accounting app).

  The SQLite table `transactions (id INTEGER PRIMARY KEY AUTOINCREMENT,
  trans_date TEXT, description TEXT, income REAL, expenses REAL, balance REAL)`
  is modelled as a list of rows in rowid (insertion) order together with the
  autoincrement counter.  Dates are ISO text compared lexicographically, as
  SQLite compares TEXT with the default BINARY collation; the REAL amounts are
  modelled as exact rationals.  `SELECT * ... ORDER BY trans_date ASC` is
  modelled as a stable insertion sort on the date column: SQLite's sorter sees
  the rows in table-scan (rowid) order, so rows with equal dates come back in
  rowid order.
-/

namespace SamPlace

/-- A row of the `transactions` table, with its columns in schema order:
`id, trans_date, description, income, expenses, balance`. -/
structure Row where
  id : Nat
  trans_date : String
  description : String
  income : Rat
  expenses : Rat
  balance : Rat
  deriving DecidableEq, Repr

/-- The SQLite database state: the rows of the `transactions` table in rowid
order, plus the AUTOINCREMENT counter that supplies the next `id`. -/
structure Store where
  rows : List Row
  nextId : Nat
  deriving DecidableEq, Repr

/-- Lexicographic comparison of character lists: the order SQLite's BINARY
collation gives TEXT values (UTF-8 byte order coincides with code-point
order). -/
def textLe : List Char → List Char → Bool
  | [], _ => true
  | _ :: _, [] => false
  | a :: as, b :: bs => if a < b then true else if b < a then false else textLe as bs

/-- Comparison of two `trans_date` TEXT values. -/
def dateLe (a b : String) : Bool :=
  textLe a.toList b.toList

/-- Insert a row into a date-ordered list, in front of the first row whose
date is not strictly earlier.  Building the sort out of this insertion makes
it stable: rows with equal dates keep their rowid order. -/
def orderedInsert (r : Row) : List Row → List Row
  | [] => [r]
  | x :: xs =>
      if dateLe r.trans_date x.trans_date then r :: x :: xs
      else x :: orderedInsert r xs

/-- Stable sort of the table rows by `trans_date` ascending: the model of
`ORDER BY trans_date ASC`. -/
def sortByDate : List Row → List Row
  | [] => []
  | x :: xs => orderedInsert x (sortByDate xs)

/-- `fetch_transactions()`: `SELECT * FROM transactions ORDER BY trans_date ASC`. -/
def fetch_transactions (s : Store) : List Row :=
  sortByDate s.rows

/-- The loop of `recalc_balance` with the running total threaded explicitly:
`balance += row["income"] - row["expenses"]`, each new total written into the
row's `balance` field. -/
def recalcFrom (b : Rat) : List Row → List Row
  | [] => []
  | x :: xs =>
      { x with balance := b + x.income - x.expenses }
        :: recalcFrom (b + x.income - x.expenses) xs

/-- The pure part of `recalc_balance`: the data frame with every `balance`
overwritten by the running total started at 0. -/
def recalcList (df : List Row) : List Row :=
  recalcFrom 0 df

/-- One `UPDATE transactions SET balance = ? WHERE id = ?` statement. -/
def setBal (u : Row) (x : Row) : Row :=
  if x.id = u.id then { x with balance := u.balance } else x

/-- The persistence loop of `recalc_balance`: one balance-UPDATE per data
frame row, executed left to right against the table. -/
def writeBalances (rows : List Row) (upd : List Row) : List Row :=
  upd.foldl (fun rs u => rs.map (setBal u)) rows

/-- The cumulative effect of the persistence loop on a single table row. -/
def applyUpdates (upd : List Row) (x : Row) : Row :=
  upd.foldl (fun r u => setBal u r) x

/-- `recalc_balance(df)`: recompute the running balance over `df` and persist
every row's new balance back to the table; returns the updated data frame and
the updated database state. -/
def recalc_balance (s : Store) (df : List Row) : List Row × Store :=
  let df1 := recalcList df
  (df1, { s with rows := writeBalances s.rows df1 })

/-- The `df = fetch_transactions(); df = recalc_balance(df)` sequence the UI
runs after every mutation: the store after persistence. -/
def refresh (s : Store) : Store :=
  (recalc_balance s (fetch_transactions s)).2

/-- The data frame the UI displays after a mutation: the recalculated fetch. -/
def displayed (s : Store) : List Row :=
  (recalc_balance s (fetch_transactions s)).1

/-- `add_transaction(trans_date, desc, income, expenses)`: reads the last
fetched balance (0 on an empty table) and inserts one row with the
provisional balance `last_balance + income - expenses`; AUTOINCREMENT assigns
the id.  There is no validation here. -/
def add_transaction (s : Store) (td desc : String) (income expenses : Rat) : Store :=
  let last_balance := (((fetch_transactions s).getLast?).map Row.balance).getD 0
  let new_balance := last_balance + income - expenses
  { rows := s.rows ++ [⟨s.nextId, td, desc, income, expenses, new_balance⟩],
    nextId := s.nextId + 1 }

/-- `delete_transaction(row_id)`: `DELETE FROM transactions WHERE id = ?`.
No existence check: deleting an absent id silently removes nothing. -/
def delete_transaction (s : Store) (row_id : Nat) : Store :=
  { s with rows := s.rows.filter (fun r => r.id ≠ row_id) }

/-- `update_transaction(row_id, trans_date, desc, income, expenses)`:
`UPDATE transactions SET trans_date = ?, description = ?, income = ?,
expenses = ? WHERE id = ?`.  `balance` is not touched; no existence check. -/
def update_transaction (s : Store) (row_id : Nat) (td desc : String)
    (income expenses : Rat) : Store :=
  { s with rows := s.rows.map (fun r =>
      if r.id = row_id then
        { r with trans_date := td, description := desc,
                 income := income, expenses := expenses }
      else r) }

/-- A spreadsheet cell of the exported sheet. -/
inductive Cell where
  | nat (n : Nat)
  | str (s : String)
  | rat (q : Rat)
  deriving DecidableEq, Repr

/-- The cells of one exported data row, one per data-frame column in schema
order. -/
def rowCells (r : Row) : List Cell :=
  [.nat r.id, .str r.trans_date, .str r.description,
   .rat r.income, .rat r.expenses, .rat r.balance]

/-- The sheet-level content of the workbook produced by
`df.to_excel(output, index=False, sheet_name="Transactions")`: sheet name as
passed, the data frame's column labels as the header row (pandas default
`header=True`), no index column, one data row per data-frame row.  The byte
serialisation of this content is the spreadsheet library's. -/
structure Workbook where
  sheetName : String
  header : List String
  dataRows : List (List Cell)
  deriving DecidableEq, Repr

/-- `export_to_excel(df)` at the sheet level. -/
def export_to_excel (df : List Row) : Workbook :=
  { sheetName := "Transactions",
    header := ["id", "trans_date", "description", "income", "expenses", "balance"],
    dataRows := df.map rowCells }

/-- The warnings the add form can show. -/
inductive Warning where
  | emptyDescription
  | bothZero
  deriving DecidableEq, Repr

/-- The add-form submit handler: `if not desc.strip(): warn; elif income == 0
and expenses == 0: warn; else add_transaction(...); fetch; recalc_balance`.
Returns the store afterwards and the warning, if one was shown. -/
def submitAdd (s : Store) (td desc : String) (income expenses : Rat) :
    Store × Option Warning :=
  if desc.trim = "" then (s, some .emptyDescription)
  else if income = 0 ∧ expenses = 0 then (s, some .bothZero)
  else (refresh (add_transaction s td desc income expenses), none)

/-- The non-derived data of a row: every column except `balance`. -/
def rowData (r : Row) : Nat × String × String × Rat × Rat :=
  (r.id, r.trans_date, r.description, r.income, r.expenses)

/-- The net contribution of a list of rows. -/
def netSum (l : List Row) : Rat :=
  (l.map (fun r => r.income - r.expenses)).sum

/-- The date order between two rows, as a proposition. -/
def dle (a b : Row) : Prop :=
  dateLe a.trans_date b.trans_date = true

/-- A small concrete table used to exercise the theorems below: three rows
with distinct ids and ascending dates. -/
def demoRow1 : Row :=
  ⟨1, "2024-01-01", "Opening", 100, 0, 100⟩

/-- Second demo row. -/
def demoRow2 : Row :=
  ⟨2, "2024-01-02", "Rent", 0, 30, 70⟩

/-- Third demo row. -/
def demoRow3 : Row :=
  ⟨3, "2024-01-03", "Cleaning", 50, 0, 120⟩

/-- A demo store holding the three demo rows. -/
def demoStore : Store :=
  ⟨[demoRow1, demoRow2, demoRow3], 4⟩

/-- A demo store holding one row with id 1. -/
def soloStore : Store :=
  ⟨[demoRow1], 2⟩

/-- Scenario: the empty store. -/
def scen0 : Store :=
  ⟨[], 1⟩

/-- Scenario: after the first insert. -/
def scenA1 : Store :=
  add_transaction scen0 "2024-01-01" "Opening" 100 0

/-- Scenario: after the first insert and its recalculation. -/
def scen1 : Store :=
  refresh scenA1

/-- Scenario: after the second insert. -/
def scenA2 : Store :=
  add_transaction scen1 "2024-01-02" "Rent" 0 40

/-- Scenario: after the second insert and its recalculation. -/
def scen2 : Store :=
  refresh scenA2

/-- Scenario: after updating the first record's income to 200. -/
def scenU : Store :=
  update_transaction scen2 1 "2024-01-01" "Opening" 200 0

/-- Scenario: after the update's recalculation. -/
def scen3 : Store :=
  refresh scenU

/-- Scenario: after deleting the second record. -/
def scenD : Store :=
  delete_transaction scen3 2

theorem textLe_refl (a : List Char) : textLe a a = true := by
  induction a with
  | nil => rfl
  | cons x xs ih => simp [textLe, lt_irrefl, ih]

theorem textLe_total (a b : List Char) : textLe a b = true ∨ textLe b a = true := by
  induction a generalizing b with
  | nil => left; rfl
  | cons x xs ih =>
    cases b with
    | nil => right; rfl
    | cons y ys =>
      rcases lt_trichotomy x y with hxy | hxy | hxy
      · left; simp [textLe, hxy]
      · subst hxy
        rcases ih ys with h | h
        · left; simp [textLe, lt_irrefl, h]
        · right; simp [textLe, lt_irrefl, h]
      · right; simp [textLe, hxy]

theorem textLe_trans {a b c : List Char} (h1 : textLe a b = true)
    (h2 : textLe b c = true) : textLe a c = true := by
  induction a generalizing b c with
  | nil => rfl
  | cons x xs ih =>
    cases b with
    | nil => simp [textLe] at h1
    | cons y ys =>
      cases c with
      | nil => simp [textLe] at h2
      | cons z zs =>
        simp only [textLe] at h1 h2 ⊢
        rcases lt_trichotomy x y with hxy | hxy | hxy
        · rcases lt_trichotomy y z with hyz | hyz | hyz
          · simp [lt_trans hxy hyz]
          · subst hyz; simp [hxy]
          · simp [hyz, not_lt_of_gt hyz] at h2
        · subst hxy
          simp only [lt_irrefl, if_false] at h1
          rcases lt_trichotomy x z with hxz | hxz | hxz
          · simp [hxz]
          · subst hxz
            simp only [lt_irrefl, if_false] at h2 ⊢
            exact ih h1 h2
          · simp [hxz, not_lt_of_gt hxz] at h2
        · simp [hxy, not_lt_of_gt hxy] at h1

theorem dle_refl (a : Row) : dle a a :=
  textLe_refl _

theorem dle_total (a b : Row) : dle a b ∨ dle b a :=
  textLe_total _ _

theorem dle_trans {a b c : Row} (h1 : dle a b) (h2 : dle b c) : dle a c :=
  textLe_trans h1 h2

theorem dle_of_not_dle {a b : Row} (h : ¬ dle a b) : dle b a := by
  rcases dle_total a b with h1 | h1
  · exact absurd h1 h
  · exact h1

theorem orderedInsert_nil (r : Row) : orderedInsert r [] = [r] :=
  rfl

theorem orderedInsert_cons (r x : Row) (xs : List Row) :
    orderedInsert r (x :: xs)
      = if dateLe r.trans_date x.trans_date = true then r :: x :: xs
        else x :: orderedInsert r xs :=
  rfl

theorem orderedInsert_perm (r : Row) (l : List Row) :
    List.Perm (orderedInsert r l) (r :: l) := by
  induction l with
  | nil => exact List.Perm.refl _
  | cons x xs ih =>
    rw [orderedInsert_cons]
    by_cases h : dateLe r.trans_date x.trans_date = true
    · rw [if_pos h]
    · rw [if_neg h]
      exact List.Perm.trans (List.Perm.cons x ih) (List.Perm.swap r x xs)

theorem sortByDate_perm (l : List Row) : List.Perm (sortByDate l) l := by
  induction l with
  | nil => exact List.Perm.refl _
  | cons x xs ih =>
    exact List.Perm.trans (orderedInsert_perm x (sortByDate xs)) (List.Perm.cons x ih)

theorem orderedInsert_pairwise (r : Row) (l : List Row)
    (hl : List.Pairwise dle l) : List.Pairwise dle (orderedInsert r l) := by
  induction l with
  | nil => simp [orderedInsert_nil, List.pairwise_cons]
  | cons x xs ih =>
    rw [List.pairwise_cons] at hl
    rw [orderedInsert_cons]
    by_cases h : dateLe r.trans_date x.trans_date = true
    · rw [if_pos h]
      rw [List.pairwise_cons]
      constructor
      · intro z hz
        rcases List.mem_cons.mp hz with hz | hz
        · subst hz; exact h
        · exact dle_trans h (hl.1 z hz)
      · rw [List.pairwise_cons]
        exact hl
    · rw [if_neg h]
      rw [List.pairwise_cons]
      constructor
      · intro z hz
        have hz2 : z ∈ r :: xs := (orderedInsert_perm r xs).mem_iff.mp hz
        rcases List.mem_cons.mp hz2 with hz2 | hz2
        · subst hz2; exact dle_of_not_dle h
        · exact hl.1 z hz2
      · exact ih hl.2

theorem sortByDate_pairwise (l : List Row) : List.Pairwise dle (sortByDate l) := by
  induction l with
  | nil => exact List.Pairwise.nil
  | cons x xs ih => exact orderedInsert_pairwise x (sortByDate xs) ih

theorem orderedInsert_of_forall_dle (r : Row) (l : List Row)
    (h : ∀ z ∈ l, dle r z) : orderedInsert r l = r :: l := by
  cases l with
  | nil => rfl
  | cons x xs =>
    have hx : dateLe r.trans_date x.trans_date = true := h x (List.mem_cons_self x xs)
    rw [orderedInsert_cons, if_pos hx]

theorem filter_orderedInsert (p : Row → Bool) (r : Row) (l : List Row)
    (hl : List.Pairwise dle l) :
    (orderedInsert r l).filter p
      = if p r then orderedInsert r (l.filter p) else l.filter p := by
  induction l with
  | nil =>
    by_cases hp : p r <;> simp [orderedInsert_nil, List.filter, hp]
  | cons x xs ih =>
    rw [List.pairwise_cons] at hl
    rw [orderedInsert_cons]
    by_cases h : dateLe r.trans_date x.trans_date = true
    · rw [if_pos h]
      by_cases hp : p r
      · rw [if_pos hp]
        have hall : ∀ z ∈ (x :: xs).filter p, dle r z := by
          intro z hz
          have hz2 : z ∈ x :: xs := List.mem_of_mem_filter hz
          rcases List.mem_cons.mp hz2 with hz2 | hz2
          · subst hz2; exact h
          · exact dle_trans h (hl.1 z hz2)
        rw [orderedInsert_of_forall_dle r _ hall]
        rw [List.filter_cons_of_pos hp]
      · rw [if_neg hp]
        rw [List.filter_cons_of_neg hp]
    · rw [if_neg h]
      by_cases hpx : p x
      · by_cases hp : p r
        · rw [if_pos hp]
          rw [List.filter_cons_of_pos hpx, List.filter_cons_of_pos hpx]
          rw [orderedInsert_cons, if_neg h]
          rw [ih hl.2, if_pos hp]
        · rw [if_neg hp]
          rw [List.filter_cons_of_pos hpx, List.filter_cons_of_pos hpx]
          rw [ih hl.2, if_neg hp]
      · by_cases hp : p r
        · rw [if_pos hp]
          rw [List.filter_cons_of_neg hpx, List.filter_cons_of_neg hpx]
          rw [ih hl.2, if_pos hp]
        · rw [if_neg hp]
          rw [List.filter_cons_of_neg hpx, List.filter_cons_of_neg hpx]
          rw [ih hl.2, if_neg hp]

theorem filter_sortByDate (p : Row → Bool) (l : List Row) :
    (sortByDate l).filter p = sortByDate (l.filter p) := by
  induction l with
  | nil => rfl
  | cons x xs ih =>
    show (orderedInsert x (sortByDate xs)).filter p = sortByDate ((x :: xs).filter p)
    rw [filter_orderedInsert p x (sortByDate xs) (sortByDate_pairwise xs), ih]
    by_cases hp : p x
    · rw [if_pos hp, List.filter_cons_of_pos hp]
      rfl
    · rw [if_neg hp, List.filter_cons_of_neg hp]

theorem sortByDate_of_forall_eq_date (d : String) (l : List Row)
    (h : ∀ x ∈ l, x.trans_date = d) : sortByDate l = l := by
  induction l with
  | nil => rfl
  | cons x xs ih =>
    have hxs : ∀ z ∈ xs, z.trans_date = d := fun z hz => h z (List.mem_cons_of_mem x hz)
    have hsorted : sortByDate xs = xs := ih hxs
    show orderedInsert x (sortByDate xs) = x :: xs
    rw [hsorted]
    apply orderedInsert_of_forall_dle
    intro z hz
    show dateLe x.trans_date z.trans_date = true
    rw [h x (List.mem_cons_self x xs), hxs z hz]
    exact textLe_refl _

theorem orderedInsert_map (g : Row → Row) (hg : ∀ x, (g x).trans_date = x.trans_date)
    (r : Row) (l : List Row) :
    orderedInsert (g r) (l.map g) = (orderedInsert r l).map g := by
  induction l with
  | nil => rfl
  | cons x xs ih =>
    rw [List.map_cons, orderedInsert_cons, orderedInsert_cons, hg r, hg x]
    by_cases h : dateLe r.trans_date x.trans_date = true
    · rw [if_pos h, if_pos h, List.map_cons, List.map_cons]
    · rw [if_neg h, if_neg h, List.map_cons, ih]

theorem sortByDate_map (g : Row → Row) (hg : ∀ x, (g x).trans_date = x.trans_date)
    (l : List Row) : sortByDate (l.map g) = (sortByDate l).map g := by
  induction l with
  | nil => rfl
  | cons x xs ih =>
    show orderedInsert (g x) (sortByDate (xs.map g)) = (orderedInsert x (sortByDate xs)).map g
    rw [ih, orderedInsert_map g hg]

theorem recalcFrom_nil (b : Rat) : recalcFrom b [] = [] :=
  rfl

theorem recalcFrom_cons (b : Rat) (x : Row) (xs : List Row) :
    recalcFrom b (x :: xs)
      = { x with balance := b + x.income - x.expenses }
          :: recalcFrom (b + x.income - x.expenses) xs :=
  rfl

theorem recalcFrom_length (b : Rat) (l : List Row) :
    (recalcFrom b l).length = l.length := by
  induction l generalizing b with
  | nil => rfl
  | cons x xs ih => simp [recalcFrom_cons, ih]

theorem netSum_nil : netSum [] = 0 :=
  rfl

theorem netSum_cons (x : Row) (xs : List Row) :
    netSum (x :: xs) = (x.income - x.expenses) + netSum xs := by
  simp [netSum]

theorem netSum_eq_income_sub_expenses (l : List Row) :
    netSum l = (l.map Row.income).sum - (l.map Row.expenses).sum := by
  induction l with
  | nil => simp [netSum_nil]
  | cons x xs ih =>
    rw [netSum_cons, ih]
    simp only [List.map_cons, List.sum_cons]
    ring

theorem recalcFrom_append (b : Rat) (l1 l2 : List Row) :
    recalcFrom b (l1 ++ l2) = recalcFrom b l1 ++ recalcFrom (b + netSum l1) l2 := by
  induction l1 generalizing b with
  | nil => simp [recalcFrom_nil, netSum_nil]
  | cons x xs ih =>
    rw [List.cons_append, recalcFrom_cons, recalcFrom_cons, ih, List.cons_append]
    have harith : b + x.income - x.expenses + netSum xs = b + netSum (x :: xs) := by
      rw [netSum_cons]; ring
    rw [harith]

theorem recalcFrom_get (b : Rat) (l : List Row) (i : Nat)
    (h : i < (recalcFrom b l).length) (h2 : i < l.length) :
    (recalcFrom b l).get ⟨i, h⟩
      = { l.get ⟨i, h2⟩ with balance := b + netSum (l.take (i + 1)) } := by
  induction l generalizing b i with
  | nil => exact absurd h2 (Nat.not_lt_zero i)
  | cons x xs ih =>
    cases i with
    | zero =>
      simp only [recalcFrom_cons, List.get, List.take, netSum_cons, netSum_nil]
      congr 1
      ring
    | succ j =>
      have hj : j < (recalcFrom (b + x.income - x.expenses) xs).length := by
        rw [recalcFrom_length]
        exact Nat.lt_of_succ_lt_succ h2
      have hj2 : j < xs.length := Nat.lt_of_succ_lt_succ h2
      have hstep := ih (b + x.income - x.expenses) j hj hj2
      simp only [recalcFrom_cons, List.get, List.take]
      rw [hstep]
      have harith : b + x.income - x.expenses + netSum (xs.take (j + 1))
          = b + netSum (x :: xs.take (j + 1)) := by
        rw [netSum_cons]; ring
      rw [harith]

theorem recalcFrom_map_rowData (b : Rat) (l : List Row) :
    (recalcFrom b l).map rowData = l.map rowData := by
  induction l generalizing b with
  | nil => rfl
  | cons x xs ih =>
    rw [recalcFrom_cons, List.map_cons, List.map_cons, ih]
    rfl

theorem recalcFrom_map_id (b : Rat) (l : List Row) :
    (recalcFrom b l).map Row.id = l.map Row.id := by
  induction l generalizing b with
  | nil => rfl
  | cons x xs ih =>
    rw [recalcFrom_cons, List.map_cons, List.map_cons, ih]

theorem recalcFrom_congr_rowData (b : Rat) (l1 l2 : List Row)
    (h : l1.map rowData = l2.map rowData) : recalcFrom b l1 = recalcFrom b l2 := by
  induction l1 generalizing l2 b with
  | nil =>
    cases l2 with
    | nil => rfl
    | cons y ys => simp at h
  | cons x xs ih =>
    cases l2 with
    | nil => simp at h
    | cons y ys =>
      simp only [List.map_cons, List.cons.injEq] at h
      obtain ⟨hxy, htail⟩ := h
      obtain ⟨x1, x2, x3, x4, x5, x6⟩ := x
      obtain ⟨y1, y2, y3, y4, y5, y6⟩ := y
      simp only [rowData, Prod.mk.injEq] at hxy
      obtain ⟨e1, e2, e3, e4, e5⟩ := hxy
      subst e1; subst e2; subst e3; subst e4; subst e5
      rw [recalcFrom_cons, recalcFrom_cons, ih _ _ htail]

theorem recalcList_idem (l : List Row) : recalcList (recalcList l) = recalcList l :=
  recalcFrom_congr_rowData 0 (recalcList l) l (recalcFrom_map_rowData 0 l)

theorem recalcFrom_shift (b d : Rat) (l : List Row) :
    recalcFrom (b + d) l
      = (recalcFrom b l).map (fun r => { r with balance := r.balance + d }) := by
  induction l generalizing b with
  | nil => rfl
  | cons x xs ih =>
    rw [recalcFrom_cons, recalcFrom_cons, List.map_cons]
    have h1 : b + d + x.income - x.expenses = (b + x.income - x.expenses) + d := by ring
    rw [h1, ih]

theorem setBal_rowData (u x : Row) : rowData (setBal u x) = rowData x := by
  unfold setBal
  split <;> rfl

theorem setBal_id (u x : Row) : (setBal u x).id = x.id := by
  unfold setBal
  split <;> rfl

theorem setBal_trans_date (u x : Row) : (setBal u x).trans_date = x.trans_date := by
  unfold setBal
  split <;> rfl

theorem applyUpdates_nil (x : Row) : applyUpdates [] x = x :=
  rfl

theorem applyUpdates_cons (u : Row) (us : List Row) (x : Row) :
    applyUpdates (u :: us) x = applyUpdates us (setBal u x) :=
  rfl

theorem applyUpdates_rowData (upd : List Row) (x : Row) :
    rowData (applyUpdates upd x) = rowData x := by
  induction upd generalizing x with
  | nil => rfl
  | cons u us ih =>
    rw [applyUpdates_cons, ih, setBal_rowData]

theorem applyUpdates_id (upd : List Row) (x : Row) :
    (applyUpdates upd x).id = x.id := by
  induction upd generalizing x with
  | nil => rfl
  | cons u us ih =>
    rw [applyUpdates_cons, ih, setBal_id]

theorem applyUpdates_trans_date (upd : List Row) (x : Row) :
    (applyUpdates upd x).trans_date = x.trans_date := by
  induction upd generalizing x with
  | nil => rfl
  | cons u us ih =>
    rw [applyUpdates_cons, ih, setBal_trans_date]

theorem applyUpdates_not_mem (upd : List Row) (x : Row)
    (h : x.id ∉ upd.map Row.id) : applyUpdates upd x = x := by
  induction upd with
  | nil => rfl
  | cons u us ih =>
    rw [List.map_cons, List.mem_cons] at h
    push_neg at h
    have hne : ¬ x.id = u.id := h.1
    rw [applyUpdates_cons]
    have hset : setBal u x = x := by
      unfold setBal
      rw [if_neg hne]
    rw [hset]
    exact ih h.2

theorem applyUpdates_of_mem (upd : List Row) (hnd : (upd.map Row.id).Nodup)
    (u : Row) (hu : u ∈ upd) (x : Row) (hx : x.id = u.id) :
    applyUpdates upd x = { x with balance := u.balance } := by
  induction upd with
  | nil => exact absurd hu (List.not_mem_nil u)
  | cons v vs ih =>
    rw [List.map_cons, List.nodup_cons] at hnd
    rw [applyUpdates_cons]
    rcases List.mem_cons.mp hu with hu1 | hu1
    · subst hu1
      have hset : setBal u x = { x with balance := u.balance } := by
        unfold setBal
        rw [if_pos hx]
      rw [hset]
      apply applyUpdates_not_mem
      show ({ x with balance := u.balance } : Row).id ∉ vs.map Row.id
      have : ({ x with balance := u.balance } : Row).id = u.id := hx
      rw [this]
      exact hnd.1
    · have hvu : v.id ≠ u.id := by
        intro he
        exact hnd.1 (he ▸ List.mem_map_of_mem Row.id hu1)
      have hset : setBal v x = x := by
        unfold setBal
        rw [if_neg (by rw [hx]; exact fun he => hvu he.symm)]
      rw [hset]
      exact ih hnd.2 hu1

theorem applyUpdates_idem (upd : List Row) (hnd : (upd.map Row.id).Nodup) (x : Row) :
    applyUpdates upd (applyUpdates upd x) = applyUpdates upd x := by
  by_cases hmem : x.id ∈ upd.map Row.id
  · rcases List.mem_map.mp hmem with ⟨u, hu, hid⟩
    have h1 : applyUpdates upd x = { x with balance := u.balance } :=
      applyUpdates_of_mem upd hnd u hu x hid.symm
    rw [h1]
    exact applyUpdates_of_mem upd hnd u hu _ hid.symm
  · rw [applyUpdates_not_mem upd x hmem, applyUpdates_not_mem upd x hmem]

theorem writeBalances_eq_map (rows upd : List Row) :
    writeBalances rows upd = rows.map (applyUpdates upd) := by
  induction upd generalizing rows with
  | nil =>
    show rows = rows.map (applyUpdates [])
    rw [show applyUpdates [] = id from rfl, List.map_id]
  | cons u us ih =>
    show writeBalances (rows.map (setBal u)) us = rows.map (applyUpdates (u :: us))
    rw [ih, List.map_map]
    rfl

theorem map_applyUpdates_recalcList (l : List Row) (hnd : (l.map Row.id).Nodup) :
    l.map (applyUpdates (recalcList l)) = recalcList l := by
  have hlen : (l.map (applyUpdates (recalcList l))).length = (recalcList l).length := by
    rw [List.length_map, recalcList, recalcFrom_length]
  apply List.ext_get hlen
  intro n h1 h2
  have hn2 : n < l.length := by rw [List.length_map] at h1; exact h1
  rw [List.get_map]
  have hget : (recalcList l).get ⟨n, h2⟩
      = { l.get ⟨n, hn2⟩ with balance := 0 + netSum (l.take (n + 1)) } :=
    recalcFrom_get 0 l n h2 hn2
  have hnd2 : ((recalcList l).map Row.id).Nodup := by
    rw [recalcList, recalcFrom_map_id]
    exact hnd
  have hu_mem : (recalcList l).get ⟨n, h2⟩ ∈ recalcList l := List.get_mem _ n h2
  have hid : (l.get ⟨n, hn2⟩).id = ((recalcList l).get ⟨n, h2⟩).id := by
    rw [hget]
  have happ := applyUpdates_of_mem (recalcList l) hnd2 _ hu_mem (l.get ⟨n, hn2⟩) hid
  rw [happ, hget]

theorem refresh_rows (s : Store) :
    (refresh s).rows = writeBalances s.rows (recalcList (fetch_transactions s)) :=
  rfl

theorem refresh_nextId (s : Store) : (refresh s).nextId = s.nextId :=
  rfl

theorem fetch_refresh (s : Store) (hnd : (s.rows.map Row.id).Nodup) :
    fetch_transactions (refresh s) = recalcList (fetch_transactions s) := by
  show sortByDate (refresh s).rows = recalcList (sortByDate s.rows)
  rw [refresh_rows, writeBalances_eq_map]
  rw [sortByDate_map _ (applyUpdates_trans_date _)]
  apply map_applyUpdates_recalcList
  have hperm : List.Perm ((sortByDate s.rows).map Row.id) (s.rows.map Row.id) :=
    (sortByDate_perm s.rows).map Row.id
  exact hperm.nodup_iff.mpr hnd

theorem recalc_balance_fst (s : Store) (df : List Row) :
    (recalc_balance s df).1 = recalcList df :=
  rfl

theorem recalc_balance_snd_rows (s : Store) (df : List Row) :
    (recalc_balance s df).2.rows = writeBalances s.rows (recalcList df) :=
  rfl

theorem recalc_balance_snd_nextId (s : Store) (df : List Row) :
    (recalc_balance s df).2.nextId = s.nextId :=
  rfl

/-- C9: the store-level insert `add_transaction` performs no validation: for
every input — including an empty description and `income = expenses = 0`
simultaneously — it appends exactly one row built from the given values (with
the provisional balance `last fetched balance + income - expenses`) and
succeeds; the `ValidationError` checks live only in the UI submit handler. -/
theorem add_transaction_unvalidated_insert (s : Store) (td desc : String)
    (income expenses : Rat) :
    (add_transaction s td desc income expenses).rows
      = s.rows ++ [⟨s.nextId, td, desc, income, expenses,
          (((fetch_transactions s).getLast?).map Row.balance).getD 0 + income - expenses⟩]
    ∧ (add_transaction s td desc income expenses).rows.length = s.rows.length + 1
    ∧ (add_transaction s "2024-01-01" "" 0 0).rows.length = s.rows.length + 1 := by
  refine ⟨rfl, ?_, ?_⟩ <;> simp [add_transaction]

/-- C10: the recalculation pass `recalc_balance` modifies only the `balance`
field: ids, dates, descriptions, incomes and expenses of the data frame and
of the persisted table are untouched, no row is added or removed, and the
autoincrement counter is untouched. -/
theorem recalc_balance_only_balance (s : Store) (df : List Row) :
    (recalc_balance s df).1.map rowData = df.map rowData
    ∧ (recalc_balance s df).1.length = df.length
    ∧ (recalc_balance s df).2.rows.map rowData = s.rows.map rowData
    ∧ (recalc_balance s df).2.rows.length = s.rows.length
    ∧ (recalc_balance s df).2.nextId = s.nextId := by
  have hmap : (recalc_balance s df).2.rows.map rowData = s.rows.map rowData := by
    rw [recalc_balance_snd_rows, writeBalances_eq_map, List.map_map]
    have hfun : (rowData ∘ applyUpdates (recalcList df)) = rowData :=
      funext fun x => applyUpdates_rowData (recalcList df) x
    rw [hfun]
  refine ⟨recalcFrom_map_rowData 0 df, recalcFrom_length 0 df, hmap, ?_, rfl⟩
  have := congrArg List.length hmap
  rwa [List.length_map, List.length_map] at this

/-- C8: `export_to_excel` produces a workbook whose single sheet is named
"Transactions", whose header row lists the columns
`id, trans_date, description, income, expenses, balance` in exactly that
order, and which has one data row per transaction, in sequence order, each
carrying that transaction's six column values. -/
theorem export_to_excel_shape (df : List Row) :
    (export_to_excel df).sheetName = "Transactions"
    ∧ (export_to_excel df).header
        = ["id", "trans_date", "description", "income", "expenses", "balance"]
    ∧ (export_to_excel df).dataRows.length = df.length
    ∧ ∀ i : Nat, (export_to_excel df).dataRows.get? i
        = (df.get? i).map (fun r =>
            [Cell.nat r.id, Cell.str r.trans_date, Cell.str r.description,
             Cell.rat r.income, Cell.rat r.expenses, Cell.rat r.balance]) := by
  refine ⟨rfl, rfl, ?_, fun i => ?_⟩
  · show (df.map rowCells).length = df.length
    rw [List.length_map]
  · show (df.map rowCells).get? i = _
    rw [List.get?_map]
    rfl

/-- C3 (divergence witness): `delete_transaction` and `update_transaction`
never check that the id exists.  For any id absent from the store, both are
silent no-ops that leave the store unchanged and raise no error — in
particular a second delete of the same id silently succeeds — where the
claim requires a `NotFoundError`. -/
theorem missing_id_mutations_silently_ignored (s : Store) (k : Nat)
    (h : k ∉ s.rows.map Row.id) (td desc : String) (income expenses : Rat) :
    delete_transaction s k = s ∧ update_transaction s k td desc income expenses = s := by
  constructor
  · show { s with rows := s.rows.filter (fun r => r.id ≠ k) } = s
    have hfix : s.rows.filter (fun r => r.id ≠ k) = s.rows := by
      apply List.filter_eq_self.mpr
      intro r hr
      have hne : r.id ≠ k := fun he => h (he ▸ List.mem_map_of_mem Row.id hr)
      exact decide_eq_true hne
    rw [hfix]
  · show { s with rows := s.rows.map _ } = s
    have hfix : s.rows.map (fun r =>
        if r.id = k then
          { r with trans_date := td, description := desc,
                   income := income, expenses := expenses }
        else r) = s.rows := by
      have hcongr := List.map_congr_left (l := s.rows)
        (f := fun r =>
          if r.id = k then
            { r with trans_date := td, description := desc,
                     income := income, expenses := expenses }
          else r)
        (g := id)
        (fun r hr => by
          have hne : ¬ r.id = k := fun he => h (he ▸ List.mem_map_of_mem Row.id hr)
          show (if r.id = k then
              ({ r with trans_date := td, description := desc,
                        income := income, expenses := expenses } : Row)
            else r) = id r
          rw [if_neg hne]
          rfl)
      rw [hcongr, List.map_id]
    rw [hfix]

/-- Witness for C3's divergence theorem: after deleting the only row (id 1)
from `soloStore`, a second delete of id 1 and an update of id 1 are both
silent no-ops on the now-empty store. -/
theorem missing_id_mutations_silently_ignored_witness :
    delete_transaction (delete_transaction soloStore 1) 1 = delete_transaction soloStore 1
    ∧ update_transaction (delete_transaction soloStore 1) 1 "2024-02-02" "x" 5 0
        = delete_transaction soloStore 1 :=
  missing_id_mutations_silently_ignored (delete_transaction soloStore 1) 1
    (by decide) "2024-02-02" "x" 5 0

/-- C4: the add-form submit handler rejects a description that is empty after
stripping whitespace, and rejects income and expenses both zero: it shows a
warning and performs no store mutation — the store afterwards equals the
store before. -/
theorem submitAdd_rejects_invalid (s : Store) (td desc : String)
    (income expenses : Rat)
    (h : desc.trim = "" ∨ (income = 0 ∧ expenses = 0)) :
    (submitAdd s td desc income expenses).1 = s
    ∧ (submitAdd s td desc income expenses).2.isSome = true := by
  unfold submitAdd
  by_cases h1 : desc.trim = ""
  · rw [if_pos h1]
    exact ⟨rfl, rfl⟩
  · have h2 : income = 0 ∧ expenses = 0 := h.resolve_left h1
    rw [if_neg h1, if_pos h2]
    exact ⟨rfl, rfl⟩

/-- Witness for C4: submitting income 0 and expenses 0 (with a non-empty
description) on the empty store warns and leaves the store unchanged. -/
theorem submitAdd_rejects_invalid_witness :
    (submitAdd ⟨[], 1⟩ "2024-01-01" "note" 0 0).1 = ⟨[], 1⟩
    ∧ (submitAdd ⟨[], 1⟩ "2024-01-01" "note" 0 0).2.isSome = true :=
  submitAdd_rejects_invalid ⟨[], 1⟩ "2024-01-01" "note" 0 0 (Or.inr ⟨rfl, rfl⟩)

/-- C7: `fetch_transactions` returns the table rows sorted by `trans_date`
ascending; rows with equal dates keep the store's natural (rowid) order —
for every date, filtering the fetched sequence to that date gives exactly
the store's rows with that date in store order; the result is a permutation
of the table, and the empty table fetches to the empty sequence. -/
theorem fetch_transactions_sorted_stable (s : Store) :
    List.Pairwise dle (fetch_transactions s)
    ∧ List.Perm (fetch_transactions s) s.rows
    ∧ (∀ d : String, (fetch_transactions s).filter (fun r => r.trans_date = d)
        = s.rows.filter (fun r => r.trans_date = d))
    ∧ (∀ n : Nat, fetch_transactions ⟨[], n⟩ = []) := by
  refine ⟨sortByDate_pairwise s.rows, sortByDate_perm s.rows, fun d => ?_, fun n => rfl⟩
  show (sortByDate s.rows).filter _ = _
  rw [filter_sortByDate]
  apply sortByDate_of_forall_eq_date d
  intro x hx
  have hb := (List.mem_filter.mp hx).2
  exact of_decide_eq_true hb

/-- C1: over the date-ascending fetched sequence, `recalc_balance` assigns
to the i-th row the balance `sum(income[0..i]) - sum(expenses[0..i])` — the
left-to-right running total started at 0 — and persists exactly that value
into the table row with the same id, for every row. -/
theorem recalc_balance_running_total (s : Store)
    (hnd : (s.rows.map Row.id).Nodup) (i : Nat) :
    (∀ u, (recalc_balance s (fetch_transactions s)).1.get? i = some u →
        u.balance = (((fetch_transactions s).take (i + 1)).map Row.income).sum
          - (((fetch_transactions s).take (i + 1)).map Row.expenses).sum)
    ∧ ∀ u ∈ (recalc_balance s (fetch_transactions s)).1,
        ∀ x ∈ (recalc_balance s (fetch_transactions s)).2.rows,
          x.id = u.id → x.balance = u.balance := by
  constructor
  · intro u hu
    rw [recalc_balance_fst] at hu
    rcases List.get?_eq_some.mp hu with ⟨hlt, hget⟩
    have hlen : (recalcList (fetch_transactions s)).length = (fetch_transactions s).length :=
      recalcFrom_length 0 (fetch_transactions s)
    have hlt2 : i < (fetch_transactions s).length := hlen ▸ hlt
    have hform : (recalcList (fetch_transactions s)).get ⟨i, hlt⟩
        = { (fetch_transactions s).get ⟨i, hlt2⟩ with
            balance := 0 + netSum ((fetch_transactions s).take (i + 1)) } :=
      recalcFrom_get 0 (fetch_transactions s) i hlt hlt2
    rw [← hget, hform]
    show 0 + netSum ((fetch_transactions s).take (i + 1)) = _
    rw [netSum_eq_income_sub_expenses]
    ring
  · intro u hu x hx hid
    rw [recalc_balance_fst] at hu
    have hx2 : x ∈ s.rows.map (applyUpdates (recalcList (fetch_transactions s))) := by
      rw [← writeBalances_eq_map, ← recalc_balance_snd_rows]
      exact hx
    rcases List.mem_map.mp hx2 with ⟨y, hy, hxy⟩
    have hnd2 : ((recalcList (fetch_transactions s)).map Row.id).Nodup := by
      show ((recalcFrom 0 (fetch_transactions s)).map Row.id).Nodup
      rw [recalcFrom_map_id]
      exact ((sortByDate_perm s.rows).map Row.id).nodup_iff.mpr hnd
    have hyid : y.id = u.id := by
      rw [← hid, ← hxy, applyUpdates_id]
    have happ := applyUpdates_of_mem (recalcList (fetch_transactions s)) hnd2 u hu y hyid
    rw [← hxy, happ]

/-- Witness for C1: the demo store at index 1. -/
theorem recalc_balance_running_total_witness :
    (∀ u, (recalc_balance demoStore (fetch_transactions demoStore)).1.get? 1 = some u →
        u.balance = (((fetch_transactions demoStore).take 2).map Row.income).sum
          - (((fetch_transactions demoStore).take 2).map Row.expenses).sum)
    ∧ ∀ u ∈ (recalc_balance demoStore (fetch_transactions demoStore)).1,
        ∀ x ∈ (recalc_balance demoStore (fetch_transactions demoStore)).2.rows,
          x.id = u.id → x.balance = u.balance :=
  recalc_balance_running_total demoStore (by decide) 1

/-- C2: `recalc_balance` is a pure function of the ordered input sequence and
is idempotent: running it a second time immediately after a first run returns
the very same data frame and leaves the persisted store exactly as the first
run left it. -/
theorem recalc_balance_idempotent (s : Store) (hnd : (s.rows.map Row.id).Nodup) :
    recalc_balance (refresh s) (fetch_transactions (refresh s))
      = ((recalc_balance s (fetch_transactions s)).1, refresh s) := by
  have hfetch : fetch_transactions (refresh s) = recalcList (fetch_transactions s) :=
    fetch_refresh s hnd
  have hnd1 : ((recalcList (fetch_transactions s)).map Row.id).Nodup := by
    show ((recalcFrom 0 (fetch_transactions s)).map Row.id).Nodup
    rw [recalcFrom_map_id]
    exact ((sortByDate_perm s.rows).map Row.id).nodup_iff.mpr hnd
  apply Prod.ext
  · rw [recalc_balance_fst, recalc_balance_fst, hfetch]
    exact recalcList_idem _
  · show ({ refresh s with
        rows := writeBalances (refresh s).rows
          (recalcList (fetch_transactions (refresh s))) } : Store) = refresh s
    rw [hfetch, recalcList_idem]
    have hrows : writeBalances (refresh s).rows (recalcList (fetch_transactions s))
        = (refresh s).rows := by
      rw [refresh_rows, writeBalances_eq_map, writeBalances_eq_map, List.map_map]
      exact List.map_congr_left
        (fun x _ => applyUpdates_idem (recalcList (fetch_transactions s)) hnd1 x)
    rw [hrows]

/-- Witness for C2: the demo store. -/
theorem recalc_balance_idempotent_witness :
    recalc_balance (refresh demoStore) (fetch_transactions (refresh demoStore))
      = ((recalc_balance demoStore (fetch_transactions demoStore)).1, refresh demoStore) :=
  recalc_balance_idempotent demoStore (by decide)

/-- C5: deleting a record `r` and recalculating removes `r`, leaves every
row ordered before `r` (and its balance) unchanged, and changes the balance
of exactly the rows ordered after `r`, each by subtracting `r`'s net
contribution `income(r) - expenses(r)`. -/
theorem delete_then_recalc_shifts (s : Store) (r : Row) (l1 l2 : List Row)
    (hf : fetch_transactions s = l1 ++ r :: l2)
    (h1 : r.id ∉ l1.map Row.id) (h2 : r.id ∉ l2.map Row.id) :
    (displayed (delete_transaction s r.id)).length + 1 = (displayed s).length
    ∧ r.id ∉ (displayed (delete_transaction s r.id)).map Row.id
    ∧ (displayed (delete_transaction s r.id)).take l1.length
        = (displayed s).take l1.length
    ∧ ((displayed (delete_transaction s r.id)).drop l1.length).map Row.balance
        = ((displayed s).drop (l1.length + 1)).map
            (fun x => x.balance - (r.income - r.expenses)) := by
  have hfd : fetch_transactions (delete_transaction s r.id) = l1 ++ l2 := by
    have step1 : fetch_transactions (delete_transaction s r.id)
        = (fetch_transactions s).filter (fun x => x.id ≠ r.id) := by
      show sortByDate (s.rows.filter (fun x => x.id ≠ r.id))
        = (sortByDate s.rows).filter (fun x => x.id ≠ r.id)
      rw [filter_sortByDate]
    have hl1 : l1.filter (fun x => x.id ≠ r.id) = l1 :=
      List.filter_eq_self.mpr (fun a ha =>
        decide_eq_true (fun he => h1 (he ▸ List.mem_map_of_mem Row.id ha)))
    have hl2 : l2.filter (fun x => x.id ≠ r.id) = l2 :=
      List.filter_eq_self.mpr (fun a ha =>
        decide_eq_true (fun he => h2 (he ▸ List.mem_map_of_mem Row.id ha)))
    have hrp : ¬ (fun x => decide (x.id ≠ r.id)) r = true := by
      simp
    rw [step1, hf, List.filter_append,
      @List.filter_cons_of_neg Row (fun x => decide (x.id ≠ r.id)) r l2 hrp, hl1, hl2]
  have hold : displayed s = recalcFrom 0 l1 ++ recalcFrom (0 + netSum l1) (r :: l2) := by
    show recalcFrom 0 (fetch_transactions s) = _
    rw [hf]
    exact recalcFrom_append 0 l1 (r :: l2)
  have hnew : displayed (delete_transaction s r.id)
      = recalcFrom 0 l1 ++ recalcFrom (0 + netSum l1) l2 := by
    show recalcFrom 0 (fetch_transactions (delete_transaction s r.id)) = _
    rw [hfd]
    exact recalcFrom_append 0 l1 l2
  have hshift : recalcFrom (0 + netSum l1 + r.income - r.expenses) l2
      = (recalcFrom (0 + netSum l1) l2).map
          (fun x => { x with balance := x.balance + (r.income - r.expenses) }) := by
    have harith : 0 + netSum l1 + r.income - r.expenses
        = (0 + netSum l1) + (r.income - r.expenses) := by ring
    rw [harith]
    exact recalcFrom_shift _ _ l2
  have hold2 : displayed s
      = recalcFrom 0 l1
          ++ ({ r with balance := 0 + netSum l1 + r.income - r.expenses }
              :: (recalcFrom (0 + netSum l1) l2).map
                   (fun x => { x with balance := x.balance + (r.income - r.expenses) })) := by
    rw [hold, recalcFrom_cons, hshift]
  refine ⟨?_, ?_, ?_, ?_⟩
  · rw [hnew, hold2]
    simp only [List.length_append, List.length_cons, List.length_map, recalcFrom_length]
    omega
  · rw [hnew, List.map_append, recalcFrom_map_id, recalcFrom_map_id]
    intro hmem
    rcases List.mem_append.mp hmem with hm | hm
    · exact h1 hm
    · exact h2 hm
  · rw [hnew, hold2]
    have hlenA : l1.length = (recalcFrom 0 l1).length := (recalcFrom_length 0 l1).symm
    rw [hlenA, List.take_left, List.take_left]
  · rw [hnew, hold2]
    have hstep : recalcFrom 0 l1
          ++ ({ r with balance := 0 + netSum l1 + r.income - r.expenses }
              :: (recalcFrom (0 + netSum l1) l2).map
                   (fun x => { x with balance := x.balance + (r.income - r.expenses) }))
        = (recalcFrom 0 l1 ++ [{ r with balance := 0 + netSum l1 + r.income - r.expenses }])
            ++ (recalcFrom (0 + netSum l1) l2).map
                 (fun x => { x with balance := x.balance + (r.income - r.expenses) }) := by
      rw [List.append_assoc]
      rfl
    rw [hstep]
    have hlenA1 : l1.length + 1
        = (recalcFrom 0 l1
            ++ [{ r with balance := 0 + netSum l1 + r.income - r.expenses }]).length := by
      rw [List.length_append, recalcFrom_length]
      rfl
    rw [hlenA1, List.drop_left]
    have hlenA : l1.length = (recalcFrom 0 l1).length := (recalcFrom_length 0 l1).symm
    rw [hlenA, List.drop_left]
    rw [List.map_map]
    apply List.map_congr_left
    intro a _
    show a.balance = a.balance + (r.income - r.expenses) - (r.income - r.expenses)
    rw [add_sub_cancel_right]

/-- Witness for C5: deleting the middle demo row (id 2, net -30) from the
demo store. -/
theorem delete_then_recalc_shifts_witness :
    (displayed (delete_transaction demoStore demoRow2.id)).length + 1
        = (displayed demoStore).length
    ∧ demoRow2.id ∉ (displayed (delete_transaction demoStore demoRow2.id)).map Row.id
    ∧ (displayed (delete_transaction demoStore demoRow2.id)).take 1
        = (displayed demoStore).take 1
    ∧ ((displayed (delete_transaction demoStore demoRow2.id)).drop 1).map Row.balance
        = ((displayed demoStore).drop 2).map
            (fun x => x.balance - (demoRow2.income - demoRow2.expenses)) :=
  delete_then_recalc_shifts demoStore demoRow2 [demoRow1] [demoRow3]
    (by decide) (by decide) (by decide)

/-- C6: the concrete scenario.  From the empty store: inserting
`(2024-01-01, "Opening", 100, 0)` displays balances `[100]`; inserting
`(2024-01-02, "Rent", 0, 40)` displays `[100, 60]`; updating record 1's
income to 200 displays `[200, 160]`; deleting record 2 displays `[200]`. -/
theorem concrete_scenario :
    (displayed scenA1).map Row.balance = [100]
    ∧ (displayed scenA2).map Row.balance = [100, 60]
    ∧ (displayed scenU).map Row.balance = [200, 160]
    ∧ (displayed scenD).map Row.balance = [200] := by
  with_unfolding_all decide

end SamPlace